import Mathlib

/-!
Shallow embedding of the uplink `cp` command transfer core
(`cmd/uplinkng/cmd_cp.go`): the range resolver `parseRange`, the
single-object parallel copy engine `parallelCopy`, the per-file driver
`copyFile`, the tree orchestrator `copyRecursive`, the destination path
resolver `joinDestWith` and the relevant fragment of `Execute`.

Strings are embedded as `List Char`.  Machine integers (`int64`) are
embedded as `Int`: in every reachable configuration of the embedded code
the quantities stay far from the 64-bit boundaries, and the bounded-length
loop only ever decreases a nonnegative length, so two's-complement wrap
cannot occur on the paths the theorems speak about.
-/

namespace StorjCp

/-! ## Go string primitives used by `parseRange` -/

/-- The White_Space runes recognised by Go's `unicode.IsSpace`. -/
def goSpaceCodes : List Nat :=
  [9, 10, 11, 12, 13, 32, 0x85, 0xA0, 0x1680,
   0x2000, 0x2001, 0x2002, 0x2003, 0x2004, 0x2005, 0x2006, 0x2007,
   0x2008, 0x2009, 0x200A, 0x2028, 0x2029, 0x202F, 0x205F, 0x3000]

/-- `unicode.IsSpace` for a single rune. -/
def isGoSpace (c : Char) : Bool :=
  goSpaceCodes.contains c.toNat

/-- Left half of Go's `strings.TrimSpace`. -/
def trimLeft (l : List Char) : List Char :=
  l.dropWhile isGoSpace

/-- Right half of Go's `strings.TrimSpace`. -/
def trimRight (l : List Char) : List Char :=
  (l.reverse.dropWhile isGoSpace).reverse

/-- Go's `strings.TrimSpace`: drop leading and trailing white space. -/
def trimSpace (l : List Char) : List Char :=
  trimRight (trimLeft l)

/-- The literal `"bytes="` stripped by `parseRange`. -/
def bytesTag : List Char := ['b', 'y', 't', 'e', 's', '=']

/-- Go's `strings.TrimPrefix(r, "bytes=")`. -/
def dropBytesTag (l : List Char) : List Char :=
  if bytesTag.isPrefixOf l then l.drop bytesTag.length else l

/-- Go's `strings.Index(r, "-")`: position of the first `'-'`, if any. -/
def indexDash : List Char → Option Nat
  | [] => none
  | c :: cs => if c = '-' then some 0 else (indexDash cs).map (· + 1)

/-! ## Go `strconv.ParseInt(s, 10, 64)` -/

/-- The two kinds of `strconv.NumError` Go can report. -/
inductive NumError where
  | syntaxErr
  | rangeErr
deriving DecidableEq, Repr

/-- Value of a decimal digit character, `none` for a non-digit
(the per-rune check inside Go's `strconv.ParseUint`). -/
def digitVal (c : Char) : Option Nat :=
  if 48 ≤ c.toNat ∧ c.toNat ≤ 57 then some (c.toNat - 48) else none

/-- Accumulating loop of `strconv.ParseUint` for base 10 and a 64-bit
bound: a non-digit is a syntax error, exceeding `2^64 - 1` is a range
error. -/
def parseUintLoop : List Char → Nat → Except NumError Nat
  | [], acc => .ok acc
  | c :: cs, acc =>
    match digitVal c with
    | none => .error .syntaxErr
    | some d =>
        if 10 * acc + d > 2 ^ 64 - 1 then .error .rangeErr
        else parseUintLoop cs (10 * acc + d)

/-- Go's `strconv.ParseUint(s, 10, 64)` on the digit part. -/
def parseUintGo (l : List Char) : Except NumError Nat :=
  if l = [] then .error .syntaxErr else parseUintLoop l 0

/-- Go's `strconv.ParseInt(s, 10, 64)`: optional sign, then `ParseUint`,
then the signed 64-bit range check. -/
def parseIntGo (l : List Char) : Except NumError Int :=
  match l with
  | [] => .error .syntaxErr
  | c :: cs =>
    let neg : Bool := c = '-'
    let digits : List Char := if c = '+' ∨ c = '-' then cs else c :: cs
    match parseUintGo digits with
    | .error e => .error e
    | .ok un =>
        if neg = false ∧ 2 ^ 63 ≤ un then .error .rangeErr
        else if neg = true ∧ 2 ^ 63 < un then .error .rangeErr
        else .ok (if neg then -(un : Int) else (un : Int))

/-! ## The range resolver `parseRange` -/

/-- One constructor per `errs.New` site inside `parseRange`; `numParse`
wraps the underlying `strconv` conversion error, mirroring
`errs.New("invalid range: %w", err)`. -/
inductive RangeError where
  | multipleRanges
  | noDash
  | numParse (e : NumError)
  | bothOmitted
  | negativeStart
  | startAfterEnd
deriving DecidableEq, Repr

/-- The `switch` at the end of `parseRange` (source lines 368–399),
applied to the two halves around the first `'-'`; each half is
`strings.TrimSpace`d first, and an omitted half parses as `0`. -/
def rangeSwitch (startRaw endRaw : List Char) : Except RangeError (Int × Int) :=
  let startTok := trimSpace startRaw
  let endTok := trimSpace endRaw
  match (if startTok = [] then .ok 0 else parseIntGo startTok : Except NumError Int) with
  | .error e => .error (.numParse e)
  | .ok starti =>
    match (if endTok = [] then .ok 0 else parseIntGo endTok : Except NumError Int) with
    | .error e => .error (.numParse e)
    | .ok endi =>
        if startTok = [] ∧ endTok = [] then .error .bothOmitted
        else if startTok = [] then .ok (-endi, -1)
        else if endTok = [] then .ok (starti, -1)
        else if starti < 0 then .error .negativeStart
        else if starti > endi then .error .startAfterEnd
        else .ok (starti, endi - starti + 1)

/-- `parseRange` from `cmd_cp.go`: maps a byte-range expression to an
`(offset, length)` pair, `length = -1` meaning "until exhaustion". -/
def parseRange (r0 : List Char) : Except RangeError (Int × Int) :=
  let r := dropBytesTag (trimSpace r0)
  if r = [] then .ok (0, -1)
  else if r.contains ',' then .error .multipleRanges
  else
    match indexDash r with
    | none => .error .noDash
    | some idx => rangeSwitch (r.take idx) (r.drop (idx + 1))

/-! ## The single-object parallel copy engine `parallelCopy`

The engine is driven against oracle scripts standing for its external
collaborators (`MultiReadHandle`, `MultiWriteHandle`, the limiter and
`io.Copy`).  A submitted worker's effects (closing the read part,
committing/aborting the write part, appending to the error group) all
happen before `limiter.Wait()` returns and commute with the effects of
the main loop, so the embedding runs a worker's body at its submission
point.  The loop itself is given fuel, `none` standing for a
non-terminating execution. -/

/-- Opaque error values produced by external collaborators. -/
inductive UErr where
  | ext (n : Nat)
deriving DecidableEq, Repr

/-- The `error` value a Go function returns: either a single error from
an early-return path, or an `errs.Group` combining several. -/
inductive GoError where
  | single (e : UErr)
  | group (es : List UErr)
deriving DecidableEq, Repr

/-- Outcome of one `src.NextPart` call. -/
inductive SrcNext where
  | part
  | eof
  | fail (e : UErr)
deriving DecidableEq, Repr

/-- Oracle script for one `parallelCopy` run, indexed by the loop
counter `i`. -/
structure CopyScript where
  setOffsetErr : Option UErr
  srcNext : Nat → SrcNext
  dstNext : Nat → Option UErr
  submitOk : Nat → Bool
  copyErr : Nat → Option UErr
  commitErr : Nat → Option UErr
  dstCommitErr : Option UErr

/-- Observable event record of a `parallelCopy` run: which part handles
were acquired and released, the sizes requested, and the contents of the
shared `errs.Group`. -/
structure CopyState where
  requestedSizes : List Int := []
  srcAcquired : List Nat := []
  srcClosed : List Nat := []
  dstAcquired : List Nat := []
  dstCommitCalls : List Nat := []
  dstAbortCalls : List Nat := []
  es : List UErr := []
  srcHandleClosed : Bool := false
  dstHandleAborted : Bool := false
  dstHandleCommitCalled : Bool := false
deriving DecidableEq, Repr

/-- How the chunk loop ended: fell out of the loop (`length = 0`, EOF,
or a refused submission) versus an early `return err`. -/
inductive LoopExit where
  | finished
  | earlyErr (e : UErr)
deriving DecidableEq, Repr

/-- Body of the worker closure submitted to the limiter for part `i`:
`io.Copy`, then `wh.Commit()` if the copy succeeded, the resulting error
added to the group, with `rh.Close()` and `wh.Abort()` deferred. -/
def runWorker (s : CopyScript) (i : Nat) (st : CopyState) : CopyState :=
  let err : Option UErr :=
    match s.copyErr i with
    | some e => some e
    | none => s.commitErr i
  let st :=
    match s.copyErr i with
    | some _ => st
    | none => { st with dstCommitCalls := st.dstCommitCalls ++ [i] }
  let st :=
    match err with
    | some e => { st with es := st.es ++ [e] }
    | none => st
  { st with
      dstAbortCalls := st.dstAbortCalls ++ [i],
      srcClosed := st.srcClosed ++ [i] }

/-- The chunk loop of `parallelCopy` (source lines 290–344).  Returns
the event record, the value of `length` at loop exit, and how the loop
ended; `none` when the fuel runs out (a non-terminating loop). -/
def cpLoop (s : CopyScript) (chunkSize : Int) :
    Nat → Nat → Int → CopyState → Option (CopyState × Int × LoopExit)
  | 0, _, _, _ => none
  | fuel + 1, i, length, st =>
    if length = 0 then some (st, length, .finished)
    else
      let chunk := if length > 0 ∧ chunkSize > length then length else chunkSize
      let length := length - chunk
      let st := { st with requestedSizes := st.requestedSizes ++ [chunk] }
      match s.srcNext i with
      | .eof => some (st, length, .finished)
      | .fail e => some (st, length, .earlyErr e)
      | .part =>
        let st := { st with srcAcquired := st.srcAcquired ++ [i] }
        match s.dstNext i with
        | some e =>
            some ({ st with srcClosed := st.srcClosed ++ [i] }, length, .earlyErr e)
        | none =>
          let st := { st with dstAcquired := st.dstAcquired ++ [i] }
          if s.submitOk i then
            cpLoop s chunkSize fuel (i + 1) length (runWorker s i st)
          else
            some (st, length, .finished)

/-- Runs the deferred guards of `parallelCopy`: `src.Close()` and
`dst.Abort(ctx)` (the handle-level guard, a no-op on the storage once
the handle-level `Commit` has succeeded). -/
def runDefers (st : CopyState) : CopyState :=
  { st with srcHandleClosed := true, dstHandleAborted := true }

/-- `parallelCopy` from `cmd_cp.go`: seek, chunk loop, wait, final
`dst.Commit` added to the group, combined error.  Returns the event
record, the final `length`, and the returned `error`. -/
def parallelCopy (s : CopyScript) (chunkSize offset length : Int) (fuel : Nat) :
    Option (CopyState × Int × Option GoError) :=
  if offset ≠ 0 ∧ s.setOffsetErr.isSome then
    -- the `SetOffset` failure returns before any deferred guard is set up
    some ({}, length, s.setOffsetErr.map .single)
  else
    match cpLoop s chunkSize fuel 0 length {} with
    | none => none
    | some (st, len, .earlyErr e) =>
        some (runDefers st, len, some (.single e))
    | some (st, len, .finished) =>
        let st := { st with dstHandleCommitCalled := true }
        let st :=
          match s.dstCommitErr with
          | some e => { st with es := st.es ++ [e] }
          | none => st
        let res : Option GoError := if st.es.isEmpty then none else some (.group st.es)
        some (runDefers st, len, res)

/-- Source part handles acquired by `src.NextPart` and never closed. -/
def leakedSrcParts (st : CopyState) : List Nat :=
  st.srcAcquired.filter (fun i => !(st.srcClosed.contains i))

/-- Destination part handles acquired by `dst.NextPart` on which neither
`Commit` nor `Abort` was ever called. -/
def leakedDstParts (st : CopyState) : List Nat :=
  st.dstAcquired.filter
    (fun i => !(st.dstCommitCalls.contains i || st.dstAbortCalls.contains i))

/-- Script where every collaborator call succeeds. -/
def okScript : CopyScript where
  setOffsetErr := none
  srcNext := fun _ => .part
  dstNext := fun _ => none
  submitOk := fun _ => true
  copyErr := fun _ => none
  commitErr := fun _ => none
  dstCommitErr := none

/-- Script where the enclosing context is cancelled between part
acquisition and pool submission: both `NextPart`s succeed but
`limiter.Go` refuses the closure. -/
def cancelScript : CopyScript where
  setOffsetErr := none
  srcNext := fun _ => .part
  dstNext := fun _ => none
  submitOk := fun _ => false
  copyErr := fun _ => none
  commitErr := fun _ => none
  dstCommitErr := none

/-- Script whose source reports exhaustion on the very first part. -/
def eofScript : CopyScript where
  setOffsetErr := none
  srcNext := fun _ => .eof
  dstNext := fun _ => none
  submitOk := fun _ => true
  copyErr := fun _ => none
  commitErr := fun _ => none
  dstCommitErr := none

/-! ## Locations and the destination path resolver -/

/-- Modelled from the spec: the `ulloc.Location` model (spec §3) — an
opaque address that is a local path, a remote bucket/key pair, or a
standard stream; its `ulloc` implementation is not among the examined
source files. -/
inductive Location where
  | std
  | localFile (path : List Char)
  | remote (bucket key : List Char)
deriving DecidableEq, Repr

namespace Location

/-- Modelled from the spec: the standard-stream classification
predicate consumed by the copy engines. -/
def isStd : Location → Bool
  | .std => true
  | _ => false

/-- Modelled from the spec: the local classification predicate. -/
def isLocal : Location → Bool
  | .localFile _ => true
  | _ => false

/-- Modelled from the spec: the remote classification predicate. -/
def isRemote : Location → Bool
  | .remote _ _ => true
  | _ => false

/-- Modelled from the spec: the "directory-ish" flag with
trailing-separator semantics (spec §3) — the path or key ends in the
separator. -/
def directoryish : Location → Bool
  | .std => false
  | .localFile p => p.getLast? = some '/'
  | .remote _ k => k.getLast? = some '/'

/-- Modelled from the spec: `AsDirectoryish` marks a location
directory-ish by ensuring a trailing separator. -/
def asDirectoryish : Location → Location
  | .std => .std
  | .localFile p => if p.getLast? = some '/' then .localFile p else .localFile (p ++ ['/'])
  | .remote b k => if k.getLast? = some '/' then .remote b k else .remote b (k ++ ['/'])

/-- Modelled from the spec: `Undirectoryish` strips any trailing
separator (spec §4.4: "any trailing separator is stripped"). -/
def undirectoryish : Location → Location
  | .std => .std
  | .localFile p => .localFile (trimTrailingSlashes p)
  | .remote b k => .remote b (trimTrailingSlashes k)
where
  /-- Drops every trailing `'/'`. -/
  trimTrailingSlashes (l : List Char) : List Char :=
    (l.reverse.dropWhile (· = '/')).reverse

/-- Modelled from the spec: `AppendKey` appends a suffix as a path
segment to the location's path or key (spec §4.4). -/
def appendKey (dest : Location) (suffix : List Char) : Location :=
  match dest with
  | .std => .std
  | .localFile p => .localFile (p ++ suffix)
  | .remote b k => .remote b (k ++ suffix)

/-- Modelled from the spec: `Base` yields the final path segment of the
location and whether one exists (spec §4.4 "basename join"). -/
def base : Location → Option (List Char)
  | .std => none
  | .localFile p =>
      let b := (p.reverse.takeWhile (· ≠ '/')).reverse
      if b = [] then none else some b
  | .remote _ k =>
      let b := (k.reverse.takeWhile (· ≠ '/')).reverse
      if b = [] then none else some b

end Location

/-- `joinDestWith` from `cmd_cp.go`: append the suffix to the
destination, then strip trailing separators when the result is local and
directory-ish. -/
def joinDestWith (dest : Location) (suffix : List Char) : Location :=
  let dest := dest.appendKey suffix
  if dest.isLocal && dest.directoryish then dest.undirectoryish else dest

/-! ## The per-file driver `copyFile` -/

/-- The distinct failure modes of `copyFile`: a wrapped `parseRange`
error, a source open failure, a destination create failure, or a
wrapped `parallelCopy` error. -/
inductive FileError where
  | badRange (e : RangeError)
  | openFailed (e : UErr)
  | createFailed (e : UErr)
  | copyFailed (g : GoError)
deriving DecidableEq, Repr

/-- I/O actions the copy drivers can perform against the filesystem
abstraction, in the order they were issued. -/
inductive Action where
  | list
  | submitCopy (i : Nat)
  | openSrc
  | createDst
deriving DecidableEq, Repr

/-- Oracle script for one `copyFile` run: outcomes of `fs.Open` and
`fs.Create`, and the script and fuel for the inner `parallelCopy`. -/
structure FileScript where
  openErr : Option UErr
  createErr : Option UErr
  cp : CopyScript
  cpFuel : Nat

/-- `copyFile` from `cmd_cp.go`: dry-run short-circuit, range parse,
open, create, then `parallelCopy`.  Returns the filesystem actions
performed, the part-level event record of the inner engine (`{}` when it
never ran), and the returned `error`; `none` when the inner loop's fuel
runs out.  The `parallelism` argument sizes the worker pool and does not
affect the recorded events, whose interleaving is already fixed by the
script. -/
def copyFile (dryrun : Bool) (byteRange : List Char) (parallelism chunkSize : Int)
    (s : FileScript) : Option (List Action × CopyState × Option FileError) :=
  if dryrun then some ([], {}, none)
  else
    match parseRange byteRange with
    | .error e => some ([], {}, some (.badRange e))
    | .ok (offset, length) =>
      match s.openErr with
      | some e => some ([.openSrc], {}, some (.openFailed e))
      | none =>
        match s.createErr with
        | some e => some ([.openSrc, .createDst], {}, some (.createFailed e))
        | none =>
          match parallelCopy s.cp chunkSize offset length s.cpFuel with
          | none => none
          | some (st, _, res) =>
              some ([.openSrc, .createDst], st, res.map .copyFailed)

/-! ## The tree copy orchestrator `copyRecursive` -/

/-- The distinct failure modes of `copyRecursive`: the guard against
standard streams, a listing-startup failure, a relative-path failure
(returned directly from inside the loop), the wrapped `iter.Err()`, or
the aggregated per-file error group. -/
inductive RecError where
  | stdNotSupported
  | listFailed (e : UErr)
  | relFailed (e : UErr)
  | listingErr (e : UErr)
  | fileErrors (es : List UErr)
deriving DecidableEq, Repr

/-- One listed entry as the orchestrator's loop sees it: the outcome of
the `RelativeTo` computation, the limiter's admission decision, and the
outcome of the submitted `copyFile`. -/
structure RecItem where
  relErr : Option UErr
  limitOk : Bool
  copyErr : Option UErr
deriving Repr

/-- Oracle script for one `copyRecursive` run: the `fs.List` startup
outcome, the entries produced by `iter.Next()`, and `iter.Err()`. -/
structure RecScript where
  listErr : Option UErr
  items : List RecItem
  iterErr : Option UErr

/-- The iteration loop of `copyRecursive` (source lines 172–191):
returns the actions, the aggregated error group, and an early-return
error if `RelativeTo` failed.  A refused limiter submission breaks out
of the loop; a submitted `copyFile` failure is added to the group. -/
def recLoop : List RecItem → Nat → List Action → List UErr →
    List Action × List UErr × Option UErr
  | [], _, acts, es => (acts, es, none)
  | it :: rest, i, acts, es =>
    match it.relErr with
    | some e => (acts, es, some e)
    | none =>
      if it.limitOk then
        let acts := acts ++ [.submitCopy i]
        let es :=
          match it.copyErr with
          | some e => es ++ [e]
          | none => es
        recLoop rest (i + 1) acts es
      else (acts, es, none)

/-- `copyRecursive` from `cmd_cp.go`: the standard-stream guard, the
listing, the submission loop, then `iter.Err()` checked before the
aggregated group.  Takes the `Std()` classification of source and
destination and the oracle script; returns the actions performed and the
returned `error`. -/
def copyRecursive (srcStd dstStd : Bool) (s : RecScript) :
    List Action × Option RecError :=
  if srcStd || dstStd then ([], some .stdNotSupported)
  else
    match s.listErr with
    | some e => ([.list], some (.listFailed e))
    | none =>
      let (acts, es, early) := recLoop s.items 0 [.list] []
      match early with
      | some e => (acts, some (.relFailed e))
      | none =>
        match s.iterErr with
        | some e => (acts, some (.listingErr e))
        | none =>
            if es.isEmpty then (acts, none) else (acts, some (.fileErrors es))

/-- The error values contained in a `copyRecursive` result: which
collaborator failures the caller gets to see. -/
def errsOfRec : Option RecError → List UErr
  | none => []
  | some .stdNotSupported => []
  | some (.listFailed e) => [e]
  | some (.relFailed e) => [e]
  | some (.listingErr e) => [e]
  | some (.fileErrors es) => es

/-! ## The `Execute` entry point -/

/-- The `cmdCp` configuration fields that `Execute` reads. -/
structure CmdCp where
  recursive : Bool
  dryrun : Bool
  byteRange : List Char
  parallelism : Int
  chunkSize : Int
  source : Location
  dest : Location

/-- Oracle script for one `Execute` run: `OpenFilesystem`, the two
`IsLocalDir` queries, and the scripts for whichever copy path is
taken. -/
structure ExecScript where
  openFsErr : Option UErr
  isLocalDirSrc : Bool
  isLocalDirDst : Bool
  treeScript : RecScript
  file : FileScript

/-- The distinct failure modes of `Execute`. -/
inductive ExecError where
  | openFs (e : UErr)
  | rangeWithRecursive
  | recFailed (e : RecError)
  | noBaseName
  | fileFailed (e : FileError)
deriving DecidableEq, Repr

/-- `Execute` from `cmd_cp.go`: open the filesystem, normalise the
locations to directory-ish where required, reject a byte range combined
with recursion, dispatch to `copyRecursive`, or pick a base name, join
the destination and run `copyFile`.  Returns the actions performed and
the returned `error`; `none` when the inner copy loop's fuel runs
out. -/
def execute (c : CmdCp) (s : ExecScript) : Option (List Action × Option ExecError) :=
  match s.openFsErr with
  | some e => some ([], some (.openFs e))
  | none =>
    let source := if s.isLocalDirSrc then c.source.asDirectoryish else c.source
    let dest := if c.recursive || s.isLocalDirDst then c.dest.asDirectoryish else c.dest
    if c.recursive then
      if c.byteRange ≠ [] then some ([], some .rangeWithRecursive)
      else
        let (acts, r) := copyRecursive source.isStd dest.isStd s.treeScript
        some (acts, r.map .recFailed)
    else
      let baseRes : Except ExecError (List Char) :=
        if dest.directoryish && !source.isStd then
          match source.undirectoryish.base with
          | none => .error .noBaseName
          | some b => .ok b
        else .ok []
      match baseRes with
      | .error e => some ([], some e)
      | .ok b =>
        let dest := joinDestWith dest b
        match copyFile c.dryrun c.byteRange c.parallelism c.chunkSize s.file with
        | none => none
        | some (acts, _, r) => some (acts, r.map .fileFailed)

/-- The rejection produced by the `parallelism-chunk-size` flag
transform in `Setup` ("file chunk size must be at least 1 MB"). -/
inductive ConfigError where
  | chunkSizeTooSmall
deriving DecidableEq, Repr

/-- The `parallelism-chunk-size` flag transform from `Setup` in
`cmd_cp.go`: sizes below one megabyte are refused.  The numeric value of
the `memory` package's constant is modelled from the spec (§4.2 states
the 1 MiB precondition; the package itself is not among the examined
source files). -/
def chunkSizeTransform (n : Int) : Except ConfigError Int :=
  if n < 1048576 then .error .chunkSizeTooSmall else .ok n

/-! ## The reference chunk sequence of a bounded transfer -/

/-- The sequence of chunk sizes the loop of `parallelCopy` requests for
a bounded positive length: each entry is `min chunkSize remaining`. -/
def chunksInt (c : Int) (l : Int) : List Int :=
  if h : l ≤ 0 ∨ c ≤ 0 then [] else min c l :: chunksInt c (l - min c l)
termination_by l.toNat
decreasing_by
  simp only [not_or, not_le] at h
  omega

/-! ## Concrete scripts for the orchestrator claims -/

/-- A recursive-copy run in which one file error is collected and the
listing iterator then finishes with an error. -/
def recScriptC1 : RecScript :=
  { listErr := none,
    items := [{ relErr := none, limitOk := true, copyErr := some (.ext 1) }],
    iterErr := some (.ext 2) }

/-- A `copyFile` script in which every collaborator call succeeds. -/
def fileScriptTrivial : FileScript :=
  { openErr := none, createErr := none, cp := okScript, cpFuel := 1 }

/-- An `Execute` script in which every collaborator call succeeds and
the listing is empty. -/
def execScriptTrivial : ExecScript :=
  { openFsErr := none, isLocalDirSrc := false, isLocalDirDst := false,
    treeScript := { listErr := none, items := [], iterErr := none },
    file := fileScriptTrivial }

/-! ## Reference values for the parse theorems -/

/-- Decimal digit test used to state the general `parseRange` facts. -/
def isDigitCh (c : Char) : Bool :=
  48 ≤ c.toNat && c.toNat ≤ 57

/-- Numeric value of a decimal digit string. -/
def natOfDigits (l : List Char) : Nat :=
  l.foldl (fun a c => 10 * a + (c.toNat - 48)) 0

/-! ## Helper lemmas about the Go string primitives -/

lemma isGoSpace_of_digit {c : Char} (h : isDigitCh c = true) : isGoSpace c = false := by
  simp only [isDigitCh, Bool.and_eq_true, decide_eq_true_eq] at h
  simp only [isGoSpace, goSpaceCodes, List.contains_eq_any_beq, List.any_cons, List.any_nil,
    Bool.or_eq_false_iff, beq_eq_false_iff_ne, ne_eq]
  repeat' apply And.intro
  all_goals first | omega | trivial

lemma isGoSpace_dash : isGoSpace '-' = false := by decide

lemma isGoSpace_comma : isGoSpace ',' = false := by decide

lemma trimLeft_of_noSpace {l : List Char} (h : ∀ c ∈ l, isGoSpace c = false) :
    trimLeft l = l := by
  cases l with
  | nil => rfl
  | cons c cs => simp [trimLeft, List.dropWhile, h c (by simp)]

lemma trimRight_of_noSpace {l : List Char} (h : ∀ c ∈ l, isGoSpace c = false) :
    trimRight l = l := by
  have : l.reverse.dropWhile isGoSpace = l.reverse :=
    trimLeft_of_noSpace (fun c hc => h c (by simpa using hc))
  simp [trimRight, this]

lemma trimSpace_of_noSpace {l : List Char} (h : ∀ c ∈ l, isGoSpace c = false) :
    trimSpace l = l := by
  rw [trimSpace, trimLeft_of_noSpace h, trimRight_of_noSpace h]

lemma trimSpace_of_digits {l : List Char} (h : l.all isDigitCh = true) :
    trimSpace l = l := by
  refine trimSpace_of_noSpace (fun c hc => ?_)
  exact isGoSpace_of_digit (by simpa using List.all_eq_true.mp h c hc)

lemma dropBytesTag_of_head {l : List Char} (h : l.head? ≠ some 'b') :
    dropBytesTag l = l := by
  cases l with
  | nil => rfl
  | cons c cs =>
      have hc : c ≠ 'b' := by
        intro hcb
        exact h (by simp [hcb])
      simp [dropBytesTag, bytesTag, List.isPrefixOf, hc, Ne.symm hc]

lemma indexDash_append {a : List Char} (b : List Char) (h : '-' ∉ a) :
    indexDash (a ++ '-' :: b) = some a.length := by
  induction a with
  | nil => simp [indexDash]
  | cons c cs ih =>
      have hc : c ≠ '-' := by
        intro hcd
        exact h (by simp [hcd])
      simp only [List.cons_append, indexDash, if_neg hc, List.append_eq,
        ih (fun hm => h (List.mem_cons_of_mem c hm)), Option.map_some, List.length_cons]
      rfl

lemma head?_dropWhile_false {p : Char → Bool} :
    ∀ (l : List Char) (a : Char), (l.dropWhile p).head? = some a → p a = false := by
  intro l
  induction l with
  | nil => intro a h; simp [List.dropWhile] at h
  | cons c cs ih =>
      intro a h
      cases hp : p c with
      | true => exact ih a (by simpa [List.dropWhile, hp] using h)
      | false =>
          have hc : c = a := by simpa [List.dropWhile, hp] using h
          rw [← hc]
          exact hp

/-! ## Helper lemmas about `strconv` on digit strings -/

lemma digitVal_of_digit {c : Char} (h : isDigitCh c = true) :
    digitVal c = some (c.toNat - 48) := by
  simp only [isDigitCh, Bool.and_eq_true, decide_eq_true_eq] at h
  simp [digitVal, h.1, h.2]

lemma foldl_digits_ge (l : List Char) (acc : Nat) :
    acc ≤ l.foldl (fun a c => 10 * a + (c.toNat - 48)) acc := by
  induction l generalizing acc with
  | nil => simp
  | cons c cs ih =>
      calc acc ≤ 10 * acc + (c.toNat - 48) := by omega
      _ ≤ _ := by simpa using ih (10 * acc + (c.toNat - 48))

lemma parseUintLoop_digits :
    ∀ (l : List Char) (acc : Nat), l.all isDigitCh = true →
      l.foldl (fun a c => 10 * a + (c.toNat - 48)) acc ≤ 2 ^ 64 - 1 →
      parseUintLoop l acc = .ok (l.foldl (fun a c => 10 * a + (c.toNat - 48)) acc) := by
  intro l
  induction l with
  | nil => intro acc _ _; rfl
  | cons c cs ih =>
      intro acc hall hbound
      have hc : isDigitCh c = true := by
        have := List.all_eq_true.mp hall c (by simp)
        simpa using this
      have hcs : cs.all isDigitCh = true := by
        refine List.all_eq_true.mpr (fun x hx => ?_)
        exact List.all_eq_true.mp hall x (by simp [hx])
      have hfold : cs.foldl (fun a c => 10 * a + (c.toNat - 48)) (10 * acc + (c.toNat - 48))
          ≤ 2 ^ 64 - 1 := by simpa using hbound
      have hstep : 10 * acc + (c.toNat - 48) ≤ 2 ^ 64 - 1 :=
        le_trans (foldl_digits_ge cs _) hfold
      simp only [parseUintLoop, digitVal_of_digit hc]
      rw [if_neg (by omega)]
      simpa using ih (10 * acc + (c.toNat - 48)) hcs hfold

lemma parseIntGo_digits {l : List Char} (hne : l ≠ []) (hd : l.all isDigitCh = true)
    (hb : natOfDigits l ≤ 2 ^ 63 - 1) : parseIntGo l = .ok (natOfDigits l) := by
  cases l with
  | nil => exact absurd rfl hne
  | cons c cs =>
      have hc : isDigitCh c = true := by
        have := List.all_eq_true.mp hd c (by simp)
        simpa using this
      have hc48 : 48 ≤ c.toNat ∧ c.toNat ≤ 57 := by
        simpa [isDigitCh, Bool.and_eq_true, decide_eq_true_eq] using hc
      have hplus : c ≠ '+' := by
        intro h; rw [h] at hc48; simp at hc48
      have hdash : c ≠ '-' := by
        intro h; rw [h] at hc48; simp at hc48
      have hb64 : natOfDigits (c :: cs) ≤ 2 ^ 64 - 1 := by
        have : (2 : Nat) ^ 63 - 1 ≤ 2 ^ 64 - 1 := by norm_num
        omega
      have hloop := parseUintLoop_digits (c :: cs) 0 hd (by simpa [natOfDigits] using hb64)
      simp only [parseIntGo, if_neg (by simp [hplus, hdash] : ¬(c = '+' ∨ c = '-')),
        parseUintGo, if_neg (by simp : ¬(c :: cs = [])), hloop]
      have hfold : (c :: cs).foldl (fun a c => 10 * a + (c.toNat - 48)) 0 = natOfDigits (c :: cs) := rfl
      rw [hfold]
      rw [if_neg (by simp [hdash]; omega), if_neg (by simp [hdash]), if_neg (by simp [hdash])]

/-! ## Decomposition of `parseRange` around the first dash -/

lemma parseRange_split (a b : List Char)
    (hsp : ∀ c ∈ a ++ '-' :: b, isGoSpace c = false)
    (hhd : (a ++ '-' :: b).head? ≠ some 'b')
    (hca : ',' ∉ a) (hcb : ',' ∉ b) (hda : '-' ∉ a) :
    parseRange (a ++ '-' :: b) = rangeSwitch a b := by
  have htrim : trimSpace (a ++ '-' :: b) = a ++ '-' :: b := trimSpace_of_noSpace hsp
  have hne : a ++ '-' :: b ≠ [] := by simp
  have hcomma : (a ++ '-' :: b).contains ',' = false := by
    have : ',' ∉ a ++ '-' :: b := by
      simp only [List.mem_append, List.mem_cons]
      rintro (h | h | h)
      · exact hca h
      · exact absurd h.symm (by decide)
      · exact hcb h
    simpa using this
  have hidx : indexDash (a ++ '-' :: b) = some a.length := indexDash_append b hda
  have htake : (a ++ '-' :: b).take a.length = a := by
    simpa using List.take_left a ('-' :: b)
  have hdrop : (a ++ '-' :: b).drop (a.length + 1) = b := by
    have h1 : a ++ '-' :: b = (a ++ ['-']) ++ b := by simp
    have h2 : (a ++ ['-']).length = a.length + 1 := by simp
    rw [h1, ← h2]
    exact List.drop_left (a ++ ['-']) b
  rw [parseRange]
  simp only [htrim, dropBytesTag_of_head hhd, if_neg hne, hcomma, Bool.false_eq_true,
    if_false, hidx, htake, hdrop]

/-! ## `rangeSwitch` on clean tokens -/

lemma trimSpace_nil : trimSpace ([] : List Char) = [] := rfl

lemma rangeSwitch_digits {a b : List Char} (ha : a ≠ []) (hb : b ≠ [])
    (hda : a.all isDigitCh = true) (hdb : b.all isDigitCh = true)
    (hba : natOfDigits a ≤ 2 ^ 63 - 1) (hbb : natOfDigits b ≤ 2 ^ 63 - 1)
    (hle : natOfDigits a ≤ natOfDigits b) :
    rangeSwitch a b = .ok (natOfDigits a, (natOfDigits b : Int) - natOfDigits a + 1) := by
  have hia := parseIntGo_digits ha hda hba
  have hib := parseIntGo_digits hb hdb hbb
  have h1 : ¬((natOfDigits a : Int) < 0) := by omega
  have h2 : ¬((natOfDigits a : Int) > (natOfDigits b : Int)) := by omega
  simp [rangeSwitch, trimSpace_of_digits hda, trimSpace_of_digits hdb, hia, hib, ha, hb, h1, h2]

lemma rangeSwitch_startOnly {a : List Char} (ha : a ≠ [])
    (hda : a.all isDigitCh = true) (hba : natOfDigits a ≤ 2 ^ 63 - 1) :
    rangeSwitch a [] = .ok (natOfDigits a, -1) := by
  have hia := parseIntGo_digits ha hda hba
  simp [rangeSwitch, trimSpace_of_digits hda, trimSpace_nil, hia, ha]

lemma rangeSwitch_endOnly {b : List Char} (hb : b ≠ [])
    (hdb : b.all isDigitCh = true) (hbb : natOfDigits b ≤ 2 ^ 63 - 1) :
    rangeSwitch [] b = .ok (-(natOfDigits b : Int), -1) := by
  have hib := parseIntGo_digits hb hdb hbb
  simp [rangeSwitch, trimSpace_of_digits hdb, trimSpace_nil, hib, hb]

lemma rangeSwitch_startErr {a : List Char} (b : List Char) {e : NumError} (ha : a ≠ [])
    (hspa : ∀ c ∈ a, isGoSpace c = false) (herr : parseIntGo a = .error e) :
    rangeSwitch a b = .error (.numParse e) := by
  simp [rangeSwitch, trimSpace_of_noSpace hspa, ha, herr]

lemma rangeSwitch_endErr {a b : List Char} {e : NumError} (ha : a ≠ []) (hb : b ≠ [])
    (hda : a.all isDigitCh = true) (hba : natOfDigits a ≤ 2 ^ 63 - 1)
    (hspb : ∀ c ∈ b, isGoSpace c = false) (herr : parseIntGo b = .error e) :
    rangeSwitch a b = .error (.numParse e) := by
  have hia := parseIntGo_digits ha hda hba
  simp [rangeSwitch, trimSpace_of_digits hda, trimSpace_of_noSpace hspb, ha, hb, hia, herr]

/-- Digit strings contain no white space, no comma, no dash, and do not
start with `'b'`. -/
lemma digit_list_clean {l : List Char} (hd : l.all isDigitCh = true) :
    (∀ c ∈ l, isGoSpace c = false) ∧ ',' ∉ l ∧ '-' ∉ l ∧ l.head? ≠ some 'b' := by
  have hall : ∀ c ∈ l, isDigitCh c = true := fun c hc => by
    simpa using List.all_eq_true.mp hd c hc
  refine ⟨fun c hc => isGoSpace_of_digit (hall c hc), ?_, ?_, ?_⟩
  · intro hm
    have := hall ',' hm
    simp [isDigitCh] at this
  · intro hm
    have := hall '-' hm
    simp [isDigitCh] at this
  · cases l with
    | nil => simp
    | cons c cs =>
        intro hc
        have : c = 'b' := by simpa using hc
        have hdig := hall c (by simp)
        rw [this] at hdig
        simp [isDigitCh] at hdig

/-! ## Claim theorems: the range resolver -/

/-- C4: `parseRange` maps `""`, `"bytes=10-20"`, `"bytes=-5"` and
`"bytes=10-"` to `(0,-1)`, `(10,11)`, `(-5,-1)` and `(10,-1)` with no
error; and in general a digit string `N`, dash, digit string `M` with
`N ≤ M` yields `(N, M-N+1)`, `N-` yields `(N,-1)`, and `-N` yields
`(-N,-1)` (values within the 64-bit signed range). -/
theorem C4_parseRange_ok :
    (parseRange "".toList = .ok (0, -1)
      ∧ parseRange "bytes=10-20".toList = .ok (10, 11)
      ∧ parseRange "bytes=-5".toList = .ok (-5, -1)
      ∧ parseRange "bytes=10-".toList = .ok (10, -1))
  ∧ (∀ a b : List Char, a ≠ [] → b ≠ [] →
      a.all isDigitCh = true → b.all isDigitCh = true →
      natOfDigits a ≤ 2 ^ 63 - 1 → natOfDigits b ≤ 2 ^ 63 - 1 →
      natOfDigits a ≤ natOfDigits b →
      parseRange (a ++ '-' :: b) =
        .ok (natOfDigits a, (natOfDigits b : Int) - natOfDigits a + 1))
  ∧ (∀ a : List Char, a ≠ [] → a.all isDigitCh = true →
      natOfDigits a ≤ 2 ^ 63 - 1 →
      parseRange (a ++ '-' :: []) = .ok (natOfDigits a, -1))
  ∧ (∀ b : List Char, b ≠ [] → b.all isDigitCh = true →
      natOfDigits b ≤ 2 ^ 63 - 1 →
      parseRange ([] ++ '-' :: b) = .ok (-(natOfDigits b : Int), -1)) := by
  refine ⟨⟨rfl, rfl, rfl, rfl⟩, ?_, ?_, ?_⟩
  · intro a b ha hb hda hdb hba hbb hle
    obtain ⟨hspa, hca, hdaa, hhda⟩ := digit_list_clean hda
    obtain ⟨hspb, hcb, _, _⟩ := digit_list_clean hdb
    have hsp : ∀ c ∈ a ++ '-' :: b, isGoSpace c = false := by
      intro c hc
      rcases List.mem_append.mp hc with h | h
      · exact hspa c h
      · rcases List.mem_cons.mp h with h | h
        · rw [h]; exact isGoSpace_dash
        · exact hspb c h
    have hhd : (a ++ '-' :: b).head? ≠ some 'b' := by
      cases a with
      | nil => exact absurd rfl ha
      | cons c cs => simpa using hhda
    rw [parseRange_split a b hsp hhd hca hcb hdaa,
      rangeSwitch_digits ha hb hda hdb hba hbb hle]
  · intro a ha hda hba
    obtain ⟨hspa, hca, hdaa, hhda⟩ := digit_list_clean hda
    have hsp : ∀ c ∈ a ++ '-' :: [], isGoSpace c = false := by
      intro c hc
      rcases List.mem_append.mp hc with h | h
      · exact hspa c h
      · rcases List.mem_cons.mp h with h | h
        · rw [h]; exact isGoSpace_dash
        · simp at h
    have hhd : (a ++ '-' :: []).head? ≠ some 'b' := by
      cases a with
      | nil => exact absurd rfl ha
      | cons c cs => simpa using hhda
    rw [parseRange_split a [] hsp hhd hca (by simp) hdaa,
      rangeSwitch_startOnly ha hda hba]
  · intro b hb hdb hbb
    obtain ⟨hspb, hcb, _, _⟩ := digit_list_clean hdb
    have hsp : ∀ c ∈ ([] : List Char) ++ '-' :: b, isGoSpace c = false := by
      intro c hc
      rcases List.mem_cons.mp (by simpa using hc) with h | h
      · rw [h]; exact isGoSpace_dash
      · exact hspb c h
    rw [parseRange_split [] b hsp (by simp) (by simp) hcb (by simp),
      rangeSwitch_endOnly hb hdb hbb]

/-- Witness for C4: the general digit-string clauses evaluated at
`3-7`, `4-` and `-8`. -/
theorem C4_witness :
    parseRange (['3'] ++ '-' :: ['7']) =
      .ok (natOfDigits ['3'], (natOfDigits ['7'] : Int) - natOfDigits ['3'] + 1)
  ∧ parseRange (['4'] ++ '-' :: []) = .ok (natOfDigits ['4'], -1)
  ∧ parseRange ([] ++ '-' :: ['8']) = .ok (-(natOfDigits ['8'] : Int), -1) :=
  ⟨C4_parseRange_ok.2.1 ['3'] ['7'] (by decide) (by decide) (by decide) (by decide)
      (by decide) (by decide) (by decide),
   C4_parseRange_ok.2.2.1 ['4'] (by decide) (by decide) (by decide),
   C4_parseRange_ok.2.2.2 ['8'] (by decide) (by decide) (by decide)⟩

/-- C5: `parseRange` rejects `"bytes=20-10"` (start after end),
`"bytes=10-20,30-40"` (multiple ranges) and `"bytes=-"` (both halves
omitted); and a numeric conversion failure of the start or the end token
yields an error wrapping the underlying `strconv` error. -/
theorem C5_parseRange_err :
    (parseRange "bytes=20-10".toList = .error .startAfterEnd
      ∧ parseRange "bytes=10-20,30-40".toList = .error .multipleRanges
      ∧ parseRange "bytes=-".toList = .error .bothOmitted)
  ∧ (∀ (a b : List Char) (e : NumError), a ≠ [] →
      (∀ c ∈ a, isGoSpace c = false) → (∀ c ∈ b, isGoSpace c = false) →
      ',' ∉ a → ',' ∉ b → '-' ∉ a → a.head? ≠ some 'b' →
      parseIntGo a = .error e →
      parseRange (a ++ '-' :: b) = .error (.numParse e))
  ∧ (∀ (a b : List Char) (e : NumError), a ≠ [] → b ≠ [] →
      a.all isDigitCh = true → natOfDigits a ≤ 2 ^ 63 - 1 →
      (∀ c ∈ b, isGoSpace c = false) → ',' ∉ b →
      parseIntGo b = .error e →
      parseRange (a ++ '-' :: b) = .error (.numParse e)) := by
  refine ⟨⟨rfl, rfl, rfl⟩, ?_, ?_⟩
  · intro a b e ha hspa hspb hca hcb hdaa hhda herr
    have hsp : ∀ c ∈ a ++ '-' :: b, isGoSpace c = false := by
      intro c hc
      rcases List.mem_append.mp hc with h | h
      · exact hspa c h
      · rcases List.mem_cons.mp h with h | h
        · rw [h]; exact isGoSpace_dash
        · exact hspb c h
    have hhd : (a ++ '-' :: b).head? ≠ some 'b' := by
      cases a with
      | nil => exact absurd rfl ha
      | cons c cs => simpa using hhda
    rw [parseRange_split a b hsp hhd hca hcb hdaa, rangeSwitch_startErr b ha hspa herr]
  · intro a b e ha hb hda hba hspb hcb herr
    obtain ⟨hspa, hca, hdaa, hhda⟩ := digit_list_clean hda
    have hsp : ∀ c ∈ a ++ '-' :: b, isGoSpace c = false := by
      intro c hc
      rcases List.mem_append.mp hc with h | h
      · exact hspa c h
      · rcases List.mem_cons.mp h with h | h
        · rw [h]; exact isGoSpace_dash
        · exact hspb c h
    have hhd : (a ++ '-' :: b).head? ≠ some 'b' := by
      cases a with
      | nil => exact absurd rfl ha
      | cons c cs => simpa using hhda
    rw [parseRange_split a b hsp hhd hca hcb hdaa,
      rangeSwitch_endErr ha hb hda hba hspb herr]

/-- Witness for C5: the numeric-failure clauses evaluated at `1x-2`
(bad start) and `1-2x` (bad end). -/
theorem C5_witness :
    parseRange (['1', 'x'] ++ '-' :: ['2']) = .error (.numParse .syntaxErr)
  ∧ parseRange (['1'] ++ '-' :: ['2', 'x']) = .error (.numParse .syntaxErr) :=
  ⟨C5_parseRange_err.2.1 ['1', 'x'] ['2'] .syntaxErr (by decide) (by decide) (by decide)
      (by decide) (by decide) (by decide) (by decide) rfl,
   C5_parseRange_err.2.2 ['1'] ['2', 'x'] .syntaxErr (by decide) (by decide) (by decide)
      (by decide) (by decide) (by decide) rfl⟩

lemma chunksInt_nonpos {c l : Int} (h : l ≤ 0) : chunksInt c l = [] := by
  rw [chunksInt]
  simp [h]

lemma chunksInt_pos {c l : Int} (hc : 1 ≤ c) (hl : 0 < l) :
    chunksInt c l = min c l :: chunksInt c (l - min c l) := by
  rw [chunksInt]
  rw [dif_neg (by omega)]

lemma chunksInt_sum (c : Int) (hc : 1 ≤ c) (l : Int) (hl : 0 ≤ l) :
    (chunksInt c l).sum = l := by
  rcases eq_or_lt_of_le hl with h0 | hpos
  · rw [chunksInt_nonpos (by omega)]
    simp [← h0]
  · rw [chunksInt_pos hc hpos, List.sum_cons,
      chunksInt_sum c hc (l - min c l) (by omega)]
    omega
termination_by l.toNat
decreasing_by omega

lemma chunksInt_take_sum_le (c : Int) (hc : 1 ≤ c) (l : Int) (hl : 0 ≤ l) (k : Nat) :
    ((chunksInt c l).take k).sum ≤ l := by
  rcases eq_or_lt_of_le hl with h0 | hpos
  · rw [chunksInt_nonpos (by omega)]
    simp [← h0]
  · rw [chunksInt_pos hc hpos]
    cases k with
    | zero => simpa using hl
    | succ m =>
        rw [List.take_succ_cons, List.sum_cons]
        have := chunksInt_take_sum_le c hc (l - min c l) (by omega) m
        omega
termination_by l.toNat
decreasing_by omega

lemma chunksInt_getElem (c : Int) (hc : 1 ≤ c) (l : Int) (hl : 0 ≤ l) (k : Nat) (x : Int)
    (hx : (chunksInt c l)[k]? = some x) :
    x = min c (l - ((chunksInt c l).take k).sum) := by
  rcases eq_or_lt_of_le hl with h0 | hpos
  · rw [chunksInt_nonpos (by omega)] at hx
    simp at hx
  · rw [chunksInt_pos hc hpos] at hx ⊢
    cases k with
    | zero =>
        simp at hx
        simpa [← hx] using rfl
    | succ m =>
        rw [List.getElem?_cons_succ] at hx
        rw [List.take_succ_cons, List.sum_cons]
        have := chunksInt_getElem c hc (l - min c l) (by omega) m x hx
        rw [this]
        congr 1
        omega
termination_by l.toNat
decreasing_by omega

/-! ## The loop of `parallelCopy` under an all-success script -/

@[simp] lemma okScript_srcNext (i : Nat) : okScript.srcNext i = .part := rfl
@[simp] lemma okScript_dstNext (i : Nat) : okScript.dstNext i = none := rfl
@[simp] lemma okScript_submitOk (i : Nat) : okScript.submitOk i = true := rfl
@[simp] lemma okScript_copyErr (i : Nat) : okScript.copyErr i = none := rfl
@[simp] lemma okScript_commitErr (i : Nat) : okScript.commitErr i = none := rfl
@[simp] lemma okScript_setOffsetErr : okScript.setOffsetErr = none := rfl
@[simp] lemma okScript_dstCommitErr : okScript.dstCommitErr = none := rfl

lemma runWorker_okScript (i : Nat) (st : CopyState) :
    runWorker okScript i st =
      { st with
          dstCommitCalls := st.dstCommitCalls ++ [i],
          dstAbortCalls := st.dstAbortCalls ++ [i],
          srcClosed := st.srcClosed ++ [i] } := rfl

lemma cpLoop_okScript (c : Int) (hc : 1 ≤ c) :
    ∀ (fuel : Nat) (l : Int) (i : Nat) (st : CopyState), 0 ≤ l → l.toNat < fuel →
      ∃ st', cpLoop okScript c fuel i l st = some (st', 0, .finished)
        ∧ st'.requestedSizes = st.requestedSizes ++ chunksInt c l
        ∧ st'.es = st.es := by
  intro fuel
  induction fuel with
  | zero => intro l i st hl hf; omega
  | succ n ih =>
      intro l i st hl hf
      rcases eq_or_lt_of_le hl with h0 | hpos
      · refine ⟨st, ?_, ?_, rfl⟩
        · rw [cpLoop, if_pos h0.symm, ← h0]
        · rw [chunksInt_nonpos (by omega)]
          simp
      · have hchunk : (if l > 0 ∧ c > l then l else c) = min c l := by
          split
          · omega
          · omega
        have hl' : 0 ≤ l - min c l := by omega
        have hf' : (l - min c l).toNat < n := by omega
        obtain ⟨st', h1, h2, h3⟩ :=
          ih (l - min c l) (i + 1)
            (runWorker okScript i
              { st with
                  requestedSizes := st.requestedSizes ++ [min c l],
                  srcAcquired := st.srcAcquired ++ [i],
                  dstAcquired := st.dstAcquired ++ [i] })
            hl' hf'
        refine ⟨st', ?_, ?_, ?_⟩
        · rw [cpLoop, if_neg (by omega)]
          simp only [okScript_srcNext, okScript_dstNext, okScript_submitOk, hchunk, if_true]
          exact h1
        · rw [h2, runWorker_okScript, chunksInt_pos hc hpos]
          simp
        · rw [h3, runWorker_okScript]

/-! ## Claim theorems: the chunk loop of `parallelCopy` -/

/-- C3: for a bounded transfer (`0 ≤ length`) with `1 ≤ chunkSize` and
every collaborator call succeeding, the loop of `parallelCopy`
terminates with remaining length exactly `0`; the sizes it passes to
`NextPart` are the sequence `chunksInt`, each entry of which equals
`min chunkSize remaining`; their sum is the initial length; and the
remaining length after any number of chunks is never negative. -/
theorem C3_chunk_loop (c l : Int) (hc : 1 ≤ c) (hl : 0 ≤ l) (fuel : Nat)
    (hf : l.toNat < fuel) :
    (parallelCopy okScript c 0 l fuel).map (fun r => (r.1.requestedSizes, r.2.1, r.2.2))
      = some (chunksInt c l, 0, none)
  ∧ (chunksInt c l).sum = l
  ∧ (∀ (k : Nat) (x : Int), (chunksInt c l)[k]? = some x →
      x = min c (l - ((chunksInt c l).take k).sum))
  ∧ (∀ k : Nat, 0 ≤ l - ((chunksInt c l).take k).sum) := by
  obtain ⟨st', h1, h2, h3⟩ := cpLoop_okScript c hc fuel l 0 {} hl hf
  refine ⟨?_, chunksInt_sum c hc l hl,
    fun k x hx => chunksInt_getElem c hc l hl k x hx,
    fun k => by have := chunksInt_take_sum_le c hc l hl k; omega⟩
  rw [parallelCopy, if_neg (by simp), h1]
  have hes : st'.es = [] := h3
  have hreq : st'.requestedSizes = chunksInt c l := by simpa using h2
  simp [runDefers, hes, hreq]

/-- Witness for C3: the loop invariants evaluated at `chunkSize = 2`,
`length = 5`. -/
theorem C3_witness :
    (parallelCopy okScript 2 0 5 6).map (fun r => (r.1.requestedSizes, r.2.1, r.2.2))
      = some (chunksInt 2 5, 0, none)
  ∧ (chunksInt 2 5).sum = 5 :=
  ⟨(C3_chunk_loop 2 5 (by norm_num) (by norm_num) 6 (by norm_num)).1,
   (C3_chunk_loop 2 5 (by norm_num) (by norm_num) 6 (by norm_num)).2.1⟩

@[simp] lemma eofScript_srcNext (i : Nat) : eofScript.srcNext i = .eof := rfl
@[simp] lemma eofScript_setOffsetErr : eofScript.setOffsetErr = none := rfl
@[simp] lemma eofScript_dstCommitErr : eofScript.dstCommitErr = none := rfl

/-- C6 counterexample: invoked with `chunkSize = 0` and bounded length
`5`, `parallelCopy` does not return an error before proceeding — it
requests a part of size `0` from the source and, when the source
reports exhaustion, returns success. -/
theorem C6_counterexample :
    (parallelCopy eofScript 0 0 5 2).map (fun r => (r.1.requestedSizes, r.2.2))
      = some ([0], none) := rfl

/-- C6 (amended): `parallelCopy` itself performs no validation of
`chunkSize`: for any `chunkSize ≤ 0` it proceeds and requests a
zero-or-negative-size part from the source (returning success when the
source immediately reports exhaustion); `chunkSize ≤ 0` is instead
rejected at configuration time, where the flag transform refuses every
size below one megabyte. -/
theorem C6_no_engine_validation :
    (∀ c : Int, c ≤ 0 →
      (parallelCopy eofScript c 0 5 2).map (fun r => (r.1.requestedSizes, r.2.2))
        = some ([c], none))
  ∧ (∀ n : Int, n ≤ 0 → chunkSizeTransform n = .error .chunkSizeTooSmall) := by
  constructor
  · intro c hcle
    have hcond : ¬((5 : Int) > 0 ∧ c > 5) := by omega
    have hloop : cpLoop eofScript c 2 0 5 {} =
        some ({ requestedSizes := [c] }, 5 - c, .finished) := by
      show cpLoop eofScript c (1 + 1) 0 5 {} = _
      rw [cpLoop, if_neg (by norm_num)]
      simp [hcond]
      omega
    rw [parallelCopy, if_neg (by simp), hloop]
    simp [runDefers]
  · intro n hn
    rw [chunkSizeTransform, if_pos (by omega)]

/-- Witness for C6 (amended): evaluated at `chunkSize = -2` and flag
value `-7`. -/
theorem C6_witness :
    (parallelCopy eofScript (-2) 0 5 2).map (fun r => (r.1.requestedSizes, r.2.2))
      = some ([-2], none)
  ∧ chunkSizeTransform (-7) = .error .chunkSizeTooSmall :=
  ⟨C6_no_engine_validation.1 (-2) (by norm_num),
   C6_no_engine_validation.2 (-7) (by norm_num)⟩

/-- C2: the execution in which the context is cancelled after both part
handles of an iteration are acquired but before the worker is submitted
(`limiter.Go` returns `false`) leaves the just-acquired source part
without a `Close` and the just-acquired destination part without a
`Commit` or `Abort`: both part handles leak while the call still
returns success.  This contradicts the claim that no acquired part
handle is leaked on any exit path. -/
theorem C2_leak_on_refused_submission :
    (parallelCopy cancelScript 1 0 1 2).map
      (fun r => (leakedSrcParts r.1, leakedDstParts r.1, r.2.2))
      = some ([0], [0], none) := rfl

/-! ## Claim theorems: the tree orchestrator -/

lemma recLoop_no_relErr :
    ∀ (items : List RecItem), (∀ it ∈ items, it.relErr = none) →
      ∀ (i : Nat) (acts : List Action) (es : List UErr),
        (recLoop items i acts es).2.2 = none := by
  intro items
  induction items with
  | nil => intro _ i acts es; rfl
  | cons it rest ih =>
      intro h i acts es
      have hrel : it.relErr = none := h it (by simp)
      rw [recLoop, hrel]
      by_cases hok : it.limitOk = true
      · simp only [hok, if_true]
        exact ih (fun x hx => h x (by simp [hx])) _ _ _
      · simp only [Bool.not_eq_true] at hok
        simp [hok]

/-- C1 counterexample: with one per-file copy error already collected
into the aggregated set and the listing iterator finishing with an
error, `copyRecursive` returns only the wrapped listing error — the
collected file error is not combined into the result. -/
theorem C1_counterexample :
    (recLoop recScriptC1.items 0 [.list] []).2.1 = [.ext 1]
  ∧ (copyRecursive false false recScriptC1).2 = some (.listingErr (.ext 2))
  ∧ UErr.ext 1 ∉ errsOfRec (copyRecursive false false recScriptC1).2 :=
  ⟨rfl, rfl, by decide⟩

/-- C1 (amended): when the listing iterator finishes with an error,
`copyRecursive` returns only that wrapped listing error; per-file
errors already collected into the aggregated set are discarded, being
returned only when the iterator finishes cleanly. -/
theorem C1_listing_error_discards_file_errors (s : RecScript) (e : UErr)
    (hlist : s.listErr = none) (hiter : s.iterErr = some e)
    (hrel : ∀ it ∈ s.items, it.relErr = none) :
    (copyRecursive false false s).2 = some (.listingErr e)
  ∧ errsOfRec (copyRecursive false false s).2 = [e] := by
  have hearly := recLoop_no_relErr s.items hrel 0 [.list] []
  rcases hr : recLoop s.items 0 [.list] [] with ⟨acts, es, early⟩
  rw [hr] at hearly
  simp only at hearly
  rw [copyRecursive]
  simp only [Bool.or_self, Bool.false_eq_true, if_false, hlist, hr, hearly, hiter]
  exact ⟨trivial, rfl⟩

/-- Witness for C1 (amended): evaluated on `recScriptC1`. -/
theorem C1_witness :
    (copyRecursive false false recScriptC1).2 = some (.listingErr (.ext 2))
  ∧ errsOfRec (copyRecursive false false recScriptC1).2 = [.ext 2] :=
  C1_listing_error_discards_file_errors recScriptC1 (.ext 2) rfl rfl (by
    intro it hit
    simp only [recScriptC1, List.mem_singleton] at hit
    rw [hit])

/-! ## Claim theorems: the `Execute` guards -/

lemma isStd_asDirectoryish (x : Location) : x.asDirectoryish.isStd = x.isStd := by
  cases x with
  | std => rfl
  | localFile p =>
      simp only [Location.asDirectoryish]
      split <;> rfl
  | remote b k =>
      simp only [Location.asDirectoryish]
      split <;> rfl

/-- C7: a recursive invocation with a non-empty byte range fails before
any listing or copying is attempted (no filesystem action is
performed); and a recursive invocation whose source or destination is a
standard stream likewise fails before any listing or copying. -/
theorem C7_recursive_guards (c : CmdCp) (s : ExecScript)
    (hfs : s.openFsErr = none) (hrec : c.recursive = true) :
    (c.byteRange ≠ [] → execute c s = some ([], some .rangeWithRecursive))
  ∧ (c.byteRange = [] → (c.source.isStd || c.dest.isStd) = true →
      execute c s = some ([], some (.recFailed .stdNotSupported))) := by
  constructor
  · intro hbr
    rw [execute]
    simp [hfs, hrec, hbr]
  · intro hbr hstd
    have hs1 : (if s.isLocalDirSrc = true then c.source.asDirectoryish else c.source).isStd
        = c.source.isStd := by
      split
      · exact isStd_asDirectoryish _
      · rfl
    have hdest : (if (true || s.isLocalDirDst) = true then c.dest.asDirectoryish
        else c.dest) = c.dest.asDirectoryish := by simp
    have hguard : ((if s.isLocalDirSrc = true then c.source.asDirectoryish
          else c.source).isStd
        || (if (true || s.isLocalDirDst) = true then c.dest.asDirectoryish
              else c.dest).isStd) = true := by
      rw [hdest, Bool.or_eq_true_iff]
      rcases Bool.or_eq_true_iff.mp hstd with h | h
      · left
        rw [hs1]
        exact h
      · right
        rw [isStd_asDirectoryish]
        exact h
    rw [execute]
    simp only [hfs, hrec, hbr, if_true, ne_eq, not_true_eq_false, if_false,
      copyRecursive, Option.map_some, hguard, eq_self_iff_true]
    simp

/-- Witness for C7: both guards fired on concrete configurations. -/
theorem C7_witness :
    execute { recursive := true, dryrun := false, byteRange := "bytes=0-1".toList,
              parallelism := 1, chunkSize := 1,
              source := .localFile "a".toList, dest := .localFile "b".toList }
        execScriptTrivial = some ([], some .rangeWithRecursive)
  ∧ execute { recursive := true, dryrun := false, byteRange := [],
              parallelism := 1, chunkSize := 1,
              source := .std, dest := .localFile "b".toList }
        execScriptTrivial = some ([], some (.recFailed .stdNotSupported)) :=
  ⟨(C7_recursive_guards _ execScriptTrivial rfl rfl).1 (by decide),
   (C7_recursive_guards _ execScriptTrivial rfl rfl).2 rfl rfl⟩

/-! ## Claim theorems: the destination path resolver -/

lemma getLast?_trimTrailingSlashes (l : List Char) :
    (Location.undirectoryish.trimTrailingSlashes l).getLast? ≠ some '/' := by
  intro h
  rw [Location.undirectoryish.trimTrailingSlashes, List.getLast?_reverse] at h
  have := head?_dropWhile_false _ _ h
  simp at this

/-- C8: `joinDestWith` appends the suffix to the destination's path or
key; whenever the result is local and directory-ish its trailing
separators are stripped, so a local result is never directory-ish; a
remote destination is never stripped; a local append without a trailing
separator is returned as-is; and copying a remote object named `foo/`
into the local directory-ish destination `d/` yields the local file
`d/foo` with no trailing separator. -/
theorem C8_joinDestWith :
    (∀ (dest : Location) (suffix : List Char),
        (joinDestWith dest suffix).isLocal = true →
        (joinDestWith dest suffix).directoryish = false)
  ∧ (∀ (b k suffix : List Char),
        joinDestWith (.remote b k) suffix = .remote b (k ++ suffix))
  ∧ (∀ (p suffix : List Char), (p ++ suffix).getLast? ≠ some '/' →
        joinDestWith (.localFile p) suffix = .localFile (p ++ suffix))
  ∧ joinDestWith (.localFile "d/".toList) "foo/".toList = .localFile "d/foo".toList := by
  refine ⟨?_, ?_, ?_, by decide⟩
  · intro dest suffix hlocal
    cases dest with
    | std => simp [joinDestWith, Location.appendKey, Location.isLocal] at hlocal
    | remote b k => simp [joinDestWith, Location.appendKey, Location.isLocal] at hlocal
    | localFile p =>
        simp only [joinDestWith, Location.appendKey, Location.isLocal,
          Location.directoryish]
        by_cases hd : (p ++ suffix).getLast? = some '/'
        · rw [if_pos (by simp [hd])]
          simp only [Location.undirectoryish, Location.directoryish]
          simp [getLast?_trimTrailingSlashes]
        · rw [if_neg (fun hcond => hd (by
            simpa only [Bool.true_and, decide_eq_true_eq] using hcond))]
          simp only [Location.directoryish, decide_eq_false_iff_not]
          exact hd
  · intro b k suffix
    simp [joinDestWith, Location.appendKey, Location.isLocal]
  · intro p suffix h
    simp only [joinDestWith, Location.appendKey, Location.isLocal, Location.directoryish]
    rw [if_neg (fun hcond => h (by
      simpa only [Bool.true_and, decide_eq_true_eq] using hcond))]

/-- Witness for C8: the invariant and the plain-append clause evaluated
on concrete locations. -/
theorem C8_witness :
    (joinDestWith (.localFile "d/".toList) "foo/".toList).directoryish = false
  ∧ joinDestWith (.localFile "d/".toList) "x".toList = .localFile "d/x".toList :=
  ⟨C8_joinDestWith.1 (.localFile "d/".toList) "foo/".toList (by decide),
   C8_joinDestWith.2.2.1 "d/".toList "x".toList (by decide)⟩

/-! ## Claim theorems: dry-run -/

/-- C9: with dry-run configured, `copyFile` returns success immediately
with no filesystem action — the source is never opened, the destination
is never created, and no part sizes are ever requested. -/
theorem C9_dryrun_skips_everything (r : List Char) (p cs : Int) (s : FileScript) :
    copyFile true r p cs s = some ([], {}, none)
  ∧ (copyFile true r p cs s).map (fun x => x.2.1.requestedSizes) = some [] :=
  ⟨rfl, rfl⟩

/-- C10: because the dry-run early return precedes range parsing, a
dry-run `copyFile` returns success even on a byte-range string that
makes the non-dry-run invocation fail with a wrapped range error. -/
theorem C10_dryrun_ignores_bad_range (r : List Char) (e : RangeError) (p cs : Int)
    (s : FileScript) (h : parseRange r = .error e) :
    copyFile true r p cs s = some ([], {}, none)
  ∧ copyFile false r p cs s = some ([], {}, some (.badRange e)) := by
  refine ⟨rfl, ?_⟩
  simp [copyFile, h]

/-- Witness for C10: evaluated on the malformed range `"bytes=-"`. -/
theorem C10_witness :
    copyFile true "bytes=-".toList 1 1 fileScriptTrivial = some ([], {}, none)
  ∧ copyFile false "bytes=-".toList 1 1 fileScriptTrivial =
      some ([], {}, some (.badRange .bothOmitted)) :=
  C10_dryrun_ignores_bad_range "bytes=-".toList .bothOmitted 1 1 fileScriptTrivial rfl

end StorjCp
